import Mathlib

/-!
Verification of the outage-analysis scraping and reconciliation script
(`Outage_Analysis.py`).  Python functions are shallowly embedded as Lean
functions: strings are `String`, integer field values are `Int`, the
run timestamp is an opaque `Nat` parameter, the SDE feature-class stores
are lists of records in cursor order, Python dicts are association lists
with unique keys, and fallible operations return `Option`.
-/

namespace OutageAnalysis

/-- One scraped outage row, as produced by the `scrape_*` functions:
`[locality, provider, key, loc_cust_served, loc_out, DATE_STRING]`. -/
structure ScrapeRow where
  locality : String
  provider : String
  key : String
  served : Int
  out : Int
  date : String
deriving DecidableEq, Repr

/-- Python `str.lower()` as used on the ASCII provider/locality names,
embedded with `Char.toLower` (basic-latin lowercasing) applied charwise. -/
def py_lower (s : String) : String := String.mk (s.data.map Char.toLower)

/-- Python `s.replace(c, "")` for a one-character pattern: every
occurrence of `c` is removed. -/
def py_replace_char (s : String) (c : Char) : String :=
  String.mk (s.data.filter (fun x => x ≠ c))

/-- The characters removed by `create_prog_key`, in source order:
`["'", " ", ".", "-", "/"]`. -/
def strip_characters : List Char := ['\'', ' ', '.', '-', '/']

/-- `create_prog_key(company, locality)`: lowercase the concatenation
`company + locality`, then strip each special character in turn. -/
def create_prog_key (company locality : String) : String :=
  strip_characters.foldl (fun acc c => py_replace_char acc c) (py_lower (company ++ locality))

/-- The locality-only join key used by `dissolve_list`:
`row[0].lower().replace("'", "")`. -/
def norm_loc (s : String) : String := py_replace_char (py_lower s) '\''

theorem char_toNat_ofNat_of_valid (n : Nat) (h : Nat.isValidChar n) :
    (Char.ofNat n).toNat = n := by
  unfold Char.ofNat
  rw [dif_pos h]
  rfl

theorem char_toLower_idem (c : Char) : (c.toLower).toLower = c.toLower := by
  unfold Char.toLower
  by_cases h : c.toNat ≥ 65 ∧ c.toNat ≤ 90
  · rw [if_pos h]
    have hval : Nat.isValidChar (c.toNat + 32) := Or.inl (by omega)
    have ht : (Char.ofNat (c.toNat + 32)).toNat = c.toNat + 32 :=
      char_toNat_ofNat_of_valid _ hval
    rw [if_neg]
    rw [ht]
    omega
  · rw [if_neg h, if_neg h]

theorem mem_strip_foldl {cs : List Char} {l : List Char} {a : Char}
    (h : a ∈ cs.foldl (fun acc c => acc.filter (fun x => x ≠ c)) l) :
    a ∈ l ∧ ∀ c ∈ cs, a ≠ c := by
  induction cs generalizing l with
  | nil => exact ⟨h, by simp⟩
  | cons c cs ih =>
    rcases ih h with ⟨hmem, hrest⟩
    rw [List.mem_filter] at hmem
    refine ⟨hmem.1, ?_⟩
    intro c' hc'
    rcases List.mem_cons.mp hc' with rfl | hc'
    · simpa using hmem.2
    · exact hrest c' hc'

theorem strip_foldl_eq_self {cs : List Char} {l : List Char}
    (h : ∀ a ∈ l, ∀ c ∈ cs, a ≠ c) :
    cs.foldl (fun acc c => acc.filter (fun x => x ≠ c)) l = l := by
  induction cs generalizing l with
  | nil => rfl
  | cons c cs ih =>
    have hfil : l.filter (fun x => x ≠ c) = l := by
      rw [List.filter_eq_self]
      intro a ha
      simpa using h a ha c (List.mem_cons_self c cs)
    simp only [List.foldl_cons, hfil]
    exact ih (fun a ha c' hc' => h a ha c' (List.mem_cons_of_mem c hc'))

theorem create_prog_key_data (company locality : String) :
    (create_prog_key company locality).data =
      strip_characters.foldl (fun acc c => acc.filter (fun x => x ≠ c))
        ((company ++ locality).data.map Char.toLower) := by
  have key : ∀ (cs : List Char) (t : String),
      (cs.foldl (fun acc c => py_replace_char acc c) t).data =
        cs.foldl (fun acc c => acc.filter (fun x => x ≠ c)) t.data := by
    intro cs
    induction cs with
    | nil => intro t; rfl
    | cons c cs ih =>
      intro t
      simp only [List.foldl_cons]
      rw [ih]
      rfl
  unfold create_prog_key
  rw [key]
  rfl

theorem create_prog_key_idem (x : String) :
    create_prog_key (create_prog_key x ("")) "" = create_prog_key x ("") := by
  apply String.ext
  have hmapchar : ∀ a ∈ (create_prog_key x ("")).data, Char.toLower a = a := by
    intro a ha
    rw [create_prog_key_data] at ha
    rcases mem_strip_foldl ha with ⟨hmem, _⟩
    rcases List.mem_map.mp hmem with ⟨b, _, rfl⟩
    exact char_toLower_idem b
  rw [create_prog_key_data]
  have h1 : (create_prog_key x ("") ++ "").data = (create_prog_key x ("")).data := by
    rw [String.append_empty]
  rw [h1]
  have h2 : (create_prog_key x ("")).data.map Char.toLower = (create_prog_key x ("")).data := by
    calc (create_prog_key x ("")).data.map Char.toLower
        = (create_prog_key x ("")).data.map id := List.map_congr_left hmapchar
      _ = (create_prog_key x ("")).data := List.map_id _
  rw [h2]
  apply strip_foldl_eq_self
  intro a ha
  rw [create_prog_key_data] at ha
  exact (mem_strip_foldl ha).2

theorem strip_foldl_eq_filter (cs : List Char) (l : List Char) :
    cs.foldl (fun acc c => acc.filter (fun x => x ≠ c)) l
      = l.filter (fun a => ¬ a ∈ cs) := by
  induction cs generalizing l with
  | nil => simp
  | cons c cs ih =>
    simp only [List.foldl_cons]
    rw [ih, List.filter_filter]
    apply List.filter_congr
    intro a _
    by_cases h1 : a = c <;> by_cases h2 : a ∈ cs <;> simp [h1, h2]

/-- C6: the key builder is idempotent (`buildKey(buildKey(x)) = buildKey(x)`,
reading the one-argument form as `create_prog_key x ("")`), the concrete
example `create_prog_key ("American Electric Power") "Henrico"` equals
`"americanelectricpowerhenrico"`, and the key is exactly the lowercased
concatenation of provider and locality with the characters apostrophe,
space, period, hyphen and slash removed. -/
theorem c6_key_builder_idempotent :
    (∀ x : String, create_prog_key (create_prog_key x ("")) "" = create_prog_key x ("")) ∧
    create_prog_key ("American Electric Power") "Henrico" = "americanelectricpowerhenrico" ∧
    (∀ company locality : String,
      (create_prog_key company locality).data =
        ((company ++ locality).data.map Char.toLower).filter
          (fun ch => ¬ ch ∈ strip_characters)) := by
  refine ⟨create_prog_key_idem, by decide, ?_⟩
  intro company locality
  rw [create_prog_key_data, strip_foldl_eq_filter]

/-- Python dict assignment `d[k] = v` on an association list with unique
keys: the first entry carrying `k` is updated in place, else `(k, v)` is
appended. -/
def dict_set : List (String × Int) → String → Int → List (String × Int)
  | [], k, v => [(k, v)]
  | (k', v') :: rest, k, v =>
    if k' = k then (k, v) :: rest else (k', v') :: dict_set rest k v

/-- Python dict lookup `d[k]`, as an `Option`. -/
def dict_get : List (String × Int) → String → Option Int
  | [], _ => none
  | (k', v') :: rest, k => if k' = k then some v' else dict_get rest k

/-- `dissolve_list(in_list)`: initialise every distinct normalized locality
key to `0`, then walk the rows again adding each row's outage value onto
its key. -/
def dissolve_list (rows : List ScrapeRow) : List (String × Int) :=
  let init := (rows.map (fun r => norm_loc r.locality)).foldl
    (fun d k => dict_set d k 0) []
  rows.foldl (fun d r => dict_set d (norm_loc r.locality)
    ((dict_get d (norm_loc r.locality)).getD 0 + r.out)) init

/-- The spec's aggregate value: the arithmetic sum of `customersOut` over
all rows whose normalized locality equals `k`. -/
def sum_out (rows : List ScrapeRow) (k : String) : Int :=
  ((rows.filter (fun r => norm_loc r.locality = k)).map ScrapeRow.out).sum

theorem dict_get_set (d : List (String × Int)) (k : String) (v : Int) (q : String) :
    dict_get (dict_set d k v) q = if k = q then some v else dict_get d q := by
  induction d with
  | nil => simp [dict_set, dict_get]
  | cons p rest ih =>
    obtain ⟨k0, v0⟩ := p
    by_cases h0 : k0 = k
    · subst h0
      have hset : dict_set ((k0, v0) :: rest) k0 v = (k0, v) :: rest := by
        simp [dict_set]
      rw [hset]
      by_cases hq : k0 = q <;> simp [dict_get, hq]
    · have hset : dict_set ((k0, v0) :: rest) k v = (k0, v0) :: dict_set rest k v := by
        simp [dict_set, h0]
      rw [hset]
      simp only [dict_get]
      rw [ih]
      by_cases hq : k0 = q
      · have hkq : ¬ k = q := fun h => h0 (hq.trans h.symm)
        simp [hq, hkq]
      · simp [hq]

theorem fst_dict_set (d : List (String × Int)) (k : String) (v : Int) :
    (dict_set d k v).map Prod.fst =
      if k ∈ d.map Prod.fst then d.map Prod.fst else d.map Prod.fst ++ [k] := by
  induction d with
  | nil => simp [dict_set]
  | cons p rest ih =>
    obtain ⟨k0, v0⟩ := p
    by_cases h0 : k0 = k
    · subst h0
      have hset : dict_set ((k0, v0) :: rest) k0 v = (k0, v) :: rest := by
        simp [dict_set]
      rw [hset]
      simp
    · have hset : dict_set ((k0, v0) :: rest) k v = (k0, v0) :: dict_set rest k v := by
        simp [dict_set, h0]
      rw [hset]
      simp only [List.map_cons, ih]
      by_cases hm : k ∈ rest.map Prod.fst
      · rw [if_pos hm, if_pos (by simp [hm])]
      · rw [if_neg hm, if_neg ?hcond]
        case hcond =>
          simp only [List.mem_cons]
          push_neg
          exact ⟨fun h => h0 h.symm, hm⟩
        rfl

theorem nodup_fst_dict_set (d : List (String × Int)) (k : String) (v : Int)
    (h : (d.map Prod.fst).Nodup) : ((dict_set d k v).map Prod.fst).Nodup := by
  rw [fst_dict_set]
  by_cases hm : k ∈ d.map Prod.fst
  · rw [if_pos hm]
    exact h
  · rw [if_neg hm, List.nodup_append]
    refine ⟨h, List.nodup_singleton k, ?_⟩
    intro a ha hak
    rw [List.mem_singleton] at hak
    exact hm (hak ▸ ha)

theorem nodup_fst_dict_fold {α : Type} (l : List α) (d : List (String × Int))
    (F : List (String × Int) → α → String) (G : List (String × Int) → α → Int)
    (h : (d.map Prod.fst).Nodup) :
    ((l.foldl (fun d x => dict_set d (F d x) (G d x)) d).map Prod.fst).Nodup := by
  induction l generalizing d with
  | nil => exact h
  | cons x l ih =>
    simp only [List.foldl_cons]
    exact ih _ (nodup_fst_dict_set _ _ _ h)

theorem dict_get_init_fold (ks : List String) (d : List (String × Int)) (k : String) :
    dict_get (ks.foldl (fun d k' => dict_set d k' 0) d) k =
      if k ∈ ks then some 0 else dict_get d k := by
  induction ks generalizing d with
  | nil => simp
  | cons k0 ks ih =>
    simp only [List.foldl_cons]
    rw [ih]
    by_cases h : k ∈ ks
    · simp [h]
    · rw [dict_get_set]
      by_cases h0 : k0 = k
      · simp [h0, List.mem_cons]
      · have : ¬ k = k0 := fun hk => h0 hk.symm
        simp [h, h0, this, List.mem_cons]

theorem sum_out_of_not_mem (rows : List ScrapeRow) (k : String)
    (h : ¬ k ∈ rows.map (fun r => norm_loc r.locality)) : sum_out rows k = 0 := by
  unfold sum_out
  have : rows.filter (fun r => norm_loc r.locality = k) = [] := by
    rw [List.filter_eq_nil_iff]
    intro r hr hk
    exact h (List.mem_map.mpr ⟨r, hr, by simpa using hk⟩)
  rw [this]
  rfl

theorem dissolve_get_fold (rows : List ScrapeRow) (d : List (String × Int)) (k : String) :
    dict_get (rows.foldl (fun d r => dict_set d (norm_loc r.locality)
        ((dict_get d (norm_loc r.locality)).getD 0 + r.out)) d) k =
      if k ∈ rows.map (fun r => norm_loc r.locality)
      then some ((dict_get d k).getD 0 + sum_out rows k)
      else dict_get d k := by
  induction rows generalizing d with
  | nil => simp [sum_out]
  | cons r rest ih =>
    simp only [List.foldl_cons]
    rw [ih]
    have hget := dict_get_set d (norm_loc r.locality)
      ((dict_get d (norm_loc r.locality)).getD 0 + r.out) k
    by_cases hk : norm_loc r.locality = k
    · subst hk
      rw [if_pos rfl] at hget
      have hsum : sum_out (r :: rest) (norm_loc r.locality) =
          r.out + sum_out rest (norm_loc r.locality) := by
        unfold sum_out
        rw [List.filter_cons_of_pos (by simp)]
        simp
      by_cases hmem : norm_loc r.locality ∈ rest.map (fun r' => norm_loc r'.locality)
      · rw [if_pos hmem, if_pos (by simp), hget, hsum]
        simp only [Option.getD_some]
        congr 1
        omega
      · rw [if_neg hmem, if_pos (by simp), hget, hsum,
          sum_out_of_not_mem rest _ hmem]
        congr 1
        omega
    · rw [if_neg hk] at hget
      have hsum : sum_out (r :: rest) k = sum_out rest k := by
        unfold sum_out
        rw [List.filter_cons_of_neg (by simpa using hk)]
      have hmem : (k ∈ (r :: rest).map (fun r' => norm_loc r'.locality)) ↔
          (k ∈ rest.map (fun r' => norm_loc r'.locality)) := by
        simp only [List.map_cons, List.mem_cons]
        constructor
        · rintro (h | h)
          · exact absurd h.symm hk
          · exact h
        · exact Or.inr
      by_cases hm : k ∈ rest.map (fun r' => norm_loc r'.locality)
      · rw [if_pos hm, if_pos (hmem.mpr hm), hget, hsum]
      · rw [if_neg hm, if_neg (fun h => hm (hmem.mp h)), hget]

/-- C2: `dissolve_list` produces exactly one aggregate per distinct
normalized locality key (locality lowercased with apostrophes stripped,
provider ignored), and each aggregate's value is the arithmetic sum of
`customersOut` over the records whose normalized locality equals that
key; keys with no record are absent. -/
theorem c2_dissolve_aggregates (rows : List ScrapeRow) :
    ((dissolve_list rows).map Prod.fst).Nodup ∧
    ∀ k : String,
      dict_get (dissolve_list rows) k =
        if k ∈ rows.map (fun r => norm_loc r.locality)
        then some (sum_out rows k)
        else none := by
  constructor
  · unfold dissolve_list
    apply nodup_fst_dict_fold rows _
      (fun _ r => norm_loc r.locality)
      (fun d r => (dict_get d (norm_loc r.locality)).getD 0 + r.out)
    apply nodup_fst_dict_fold _ ([] : List (String × Int))
      (fun _ k => k) (fun _ _ => 0)
    simp
  · intro k
    unfold dissolve_list
    rw [dissolve_get_fold]
    rw [dict_get_init_fold]
    by_cases h : k ∈ rows.map (fun r => norm_loc r.locality)
    · rw [if_pos h, if_pos h, if_pos h]
      simp
    · rw [if_neg h, if_neg h, if_neg h]
      rfl

/-- Python `'%0{w}d' % n`: decimal digits of `n`, left-padded with zeros
to width `w`. -/
def py_format_pad (w n : Nat) : String :=
  String.mk (List.replicate (w - (toString n).length) '0' ++ (toString n).data)

/-- The minute-bucket selection of `build_date_strings` for one offset
`mod`: the chained `if minute >= 45+mod / 30+mod / 15+mod / else` from the
source. -/
def str_minute (mod minute : Nat) : Nat :=
  if minute ≥ 45 + mod then 45 + mod
  else if minute ≥ 30 + mod ∧ minute < 45 + mod then 30 + mod
  else if minute ≥ 15 + mod ∧ minute < 30 + mod then 15 + mod
  else 0 + mod

/-- The assembled `"{0}_{1}_{2}_{3}_{4}_{5}"` date string. -/
def date_string (year month day hour bucket : Nat) (modifier : String) : String :=
  py_format_pad 4 year ++ "_" ++ py_format_pad 2 month ++ "_" ++
    py_format_pad 2 day ++ "_" ++ py_format_pad 2 hour ++ "_" ++
    py_format_pad 2 bucket ++ "_" ++ modifier

/-- The two sub-minute modifiers `["00", "30"]`. -/
def modifiers : List String := ["00", "30"]

/-- `build_date_strings()`: for each offset in `[0, ..., 14]` and each
modifier, one candidate date string for the current UTC time (taken here
as explicit `year month day hour minute` arguments). -/
def build_date_strings (year month day hour minute : Nat) : List String :=
  (List.range 15).flatMap (fun mod => modifiers.map (fun modifier =>
    date_string year month day hour (str_minute mod minute) modifier))

theorem str_minute_lt (o m : Nat) (h : o < 15) : str_minute o m < 60 := by
  unfold str_minute
  split_ifs <;> omega

theorem str_minute_mod15 (o m : Nat) (h : o < 15) : str_minute o m % 15 = o := by
  unfold str_minute
  split_ifs <;> omega

theorem pad2_data_length : ∀ b : Fin 60, (py_format_pad 2 b.val).data.length = 2 := by
  decide

theorem pad2_inj : ∀ b b' : Fin 60,
    py_format_pad 2 b.val = py_format_pad 2 b'.val → b = b' := by
  decide

theorem date_string_inj (y mo d h : Nat) (b b' : Nat) (m m' : String)
    (hb : b < 60) (hb' : b' < 60)
    (heq : date_string y mo d h b m = date_string y mo d h b' m') :
    b = b' ∧ m = m' := by
  have hdata := congrArg String.data heq
  simp only [date_string, String.data_append, List.append_assoc] at hdata
  have h1 := List.append_cancel_left hdata
  have h2 := List.append_cancel_left h1
  have h3 := List.append_cancel_left h2
  have h4 := List.append_cancel_left h3
  have h5 := List.append_cancel_left h4
  have h6 := List.append_cancel_left h5
  have h7 := List.append_cancel_left h6
  have h8 := List.append_cancel_left h7
  have hlen : (py_format_pad 2 b).data.length = (py_format_pad 2 b').data.length := by
    rw [pad2_data_length ⟨b, hb⟩, pad2_data_length ⟨b', hb'⟩]
  obtain ⟨hpad, hrest⟩ := List.append_inj h8 hlen
  have hb_eq : b = b' := by
    have := pad2_inj ⟨b, hb⟩ ⟨b', hb'⟩ (String.ext hpad)
    exact congrArg Fin.val this
  have hm_eq : m = m' := String.ext (List.append_cancel_left hrest)
  exact ⟨hb_eq, hm_eq⟩

theorem length_flatMap_pair {α : Type} (l : List α) (f : α → List String)
    (hf : ∀ x, (f x).length = 2) : (l.flatMap f).length = 2 * l.length := by
  induction l with
  | nil => rfl
  | cons x l ih =>
    rw [List.flatMap_cons, List.length_append, hf, ih, List.length_cons]
    omega

/-- C5: for every fixed current time, `build_date_strings` produces
exactly `15 × 2 = 30` pairwise-distinct candidate strings, each of the
form `date_string year month day hour bucket modifier` with modifier
`"00"` or `"30"`; determinism is immediate since the embedded generator
is a function of the fixed `(year, month, day, hour, minute)`. -/
theorem c5_date_window_strings (year month day hour minute : Nat) :
    (build_date_strings year month day hour minute).length = 30 ∧
    (build_date_strings year month day hour minute).Nodup ∧
    ∀ s ∈ build_date_strings year month day hour minute, ∃ o, o < 15 ∧
      (s = date_string year month day hour (str_minute o minute) "00" ∨
       s = date_string year month day hour (str_minute o minute) "30") := by
  refine ⟨?_, ?_, ?_⟩
  · unfold build_date_strings
    rw [length_flatMap_pair]
    · rw [List.length_range]
    · intro x
      rfl
  · unfold build_date_strings
    rw [List.nodup_flatMap]
    constructor
    · intro o ho
      have ho15 := List.mem_range.mp ho
      simp only [modifiers, List.map_cons, List.map_nil]
      refine List.nodup_cons.mpr ⟨?_, List.nodup_singleton _⟩
      rw [List.mem_singleton]
      intro hcontra
      have := (date_string_inj year month day hour _ _ _ _
        (str_minute_lt o minute ho15) (str_minute_lt o minute ho15) hcontra).2
      exact absurd this (by decide)
    · apply List.Pairwise.imp_of_mem ?_ (List.pairwise_lt_range 15)
      intro o o' ho ho' holt s hs hs'
      rw [List.mem_range] at ho ho'
      rcases List.mem_map.mp hs with ⟨mm, hmm, rfl⟩
      rcases List.mem_map.mp hs' with ⟨mm', hmm', heq⟩
      have hinj := date_string_inj year month day hour _ _ _ _
        (str_minute_lt o' minute ho') (str_minute_lt o minute ho) heq
      have hbuck : str_minute o' minute = str_minute o minute := hinj.1
      have h1 := str_minute_mod15 o minute ho
      have h2 := str_minute_mod15 o' minute ho'
      have : o' = o := by
        rw [← h1, ← h2, hbuck]
      omega
  · intro s hs
    rw [build_date_strings, List.mem_flatMap] at hs
    obtain ⟨o, ho, hmem⟩ := hs
    rw [List.mem_range] at ho
    simp only [modifiers, List.map_cons, List.map_nil, List.mem_cons,
      List.mem_singleton] at hmem
    rcases hmem with h | h | h
    · exact ⟨o, ho, Or.inl h⟩
    · exact ⟨o, ho, Or.inr h⟩
    · exact absurd h (by simp)

/-- C4 counterexample: at offset 14 and current minute 0 the code places
bucket 14, but no element of `{0+14, 15+14, 30+14, 45+14}` is ≤ 0, so the
bucket is not "the largest value in the set that is ≤ the current
minute" — no such value exists and the chosen bucket exceeds the minute. -/
theorem c4_bucket_counterexample :
    str_minute 14 0 = 14 ∧
    ¬ ∃ v, v ∈ [0 + 14, 15 + 14, 30 + 14, 45 + 14] ∧ v ≤ 0 ∧ str_minute 14 0 = v := by
  decide

/-- C4 (amended): for offsets `o ≤ 14`, when the current minute is at
least `o` the bucket is the largest element of `{0+o, 15+o, 30+o, 45+o}`
that is ≤ the current minute; when the current minute is below `o` no
element qualifies and the code falls back to bucket `0+o`. -/
theorem c4_bucket_largest_le_minute (o minute : Nat) (ho : o ≤ 14) (hm : minute < 60) :
    (o ≤ minute →
      str_minute o minute ∈ [0 + o, 15 + o, 30 + o, 45 + o] ∧
      str_minute o minute ≤ minute ∧
      ∀ w ∈ [0 + o, 15 + o, 30 + o, 45 + o], w ≤ minute → w ≤ str_minute o minute) ∧
    (minute < o → str_minute o minute = 0 + o) := by
  constructor
  · intro hom
    unfold str_minute
    refine ⟨?_, ?_, ?_⟩
    · split_ifs <;> simp
    · split_ifs <;> omega
    · intro w hw hwm
      simp only [List.mem_cons, List.not_mem_nil, or_false] at hw
      split_ifs <;> omega
  · intro hmo
    unfold str_minute
    split_ifs <;> omega

theorem c4_bucket_largest_le_minute_witness :
    str_minute 3 50 ≤ 50 ∧ str_minute 14 0 = 0 + 14 :=
  ⟨((c4_bucket_largest_le_minute 3 50 (by decide) (by decide)).1 (by decide)).2.1,
   (c4_bucket_largest_le_minute 14 0 (by decide) (by decide)).2 (by decide)⟩

/-- The provider constants of the script. -/
def DOM : String := "DOM"

/-- The provider constants of the script. -/
def AEP : String := "AEP"

/-- `build_url(provider, date_string)`: the provider-specific URL
template, `none` for unknown providers (the source falls through). -/
def build_url (provider : String) (date_str : String) : Option String :=
  if provider = DOM then
    some ("http://outagemap.dominionenergy.com.s3.amazonaws.com/resources/data/external/interval_generation_data/"
      ++ date_str ++ "/report_region.json")
  else if provider = AEP then
    some ("http://outagemap.appalachianpower.com.s3.amazonaws.com/resources/data/external/interval_generation_data/"
      ++ date_str ++ "/report_county.json")
  else none

/-- `test_url(url_string)`: the HTTP environment is a function from URL
to response code, `none` standing for an `HTTPError`, which the source
maps to 404. -/
def test_url (env : String → Option Nat) (url_string : String) : Nat :=
  match env url_string with
  | some code => code
  | none => 404

/-- The URL a supported provider's candidate resolves to (`getD ""` is
never taken for `DOM`/`AEP`). -/
def urlOf (provider date_str : String) : String := (build_url provider date_str).getD ("")

/-- The candidate-probing loop of `get_current_provider_url`: walk the
date strings in order, build each URL, test it, and stop at the first
200; the second component counts the test requests issued. -/
def resolve_aux (prov : String) (env : String → Option Nat) :
    List String → Option String × Nat
  | [] => (none, 0)
  | d :: rest =>
    match build_url prov d with
    | none => (none, 0)
    | some u =>
      if test_url env u = 200 then (some u, 1)
      else
        let p := resolve_aux prov env rest
        (p.1, p.2 + 1)

/-- `get_current_provider_url(prov)`: generate the candidate date strings
for the current time and probe them in order; `none` models the
fall-through "No URL match found." (which aborts the run in `main`). -/
def get_current_provider_url (prov : String) (env : String → Option Nat)
    (year month day hour minute : Nat) : Option String :=
  (resolve_aux prov env (build_date_strings year month day hour minute)).1

theorem build_url_supported (prov : String) (hprov : prov = DOM ∨ prov = AEP) :
    ∀ d, build_url prov d = some (urlOf prov d) := by
  intro d
  rcases hprov with h | h <;> subst h
  · rw [build_url, if_pos rfl]
    rfl
  · unfold build_url
    rw [if_neg (by decide), if_pos rfl]
    unfold urlOf build_url
    rw [if_neg (by decide), if_pos rfl]
    rfl

/-- C3: URL resolution probes the candidates in order; the first
candidate whose test request returns 200 is returned and no further
probe is issued (the probe count is `i + 1`); if no candidate returns
200, resolution fails (`none`, modelling the fatal no-URL outcome) after
probing every candidate. -/
theorem c3_url_resolution (prov : String) (env : String → Option Nat) (ds : List String)
    (hprov : prov = DOM ∨ prov = AEP) :
    (∀ i, ∀ hi : i < ds.length,
      (∀ j, ∀ hj : j < i,
        test_url env (urlOf prov (ds.get ⟨j, Nat.lt_trans hj hi⟩)) ≠ 200) →
      test_url env (urlOf prov (ds.get ⟨i, hi⟩)) = 200 →
      resolve_aux prov env ds = (some (urlOf prov (ds.get ⟨i, hi⟩)), i + 1)) ∧
    ((∀ d ∈ ds, test_url env (urlOf prov d) ≠ 200) →
      resolve_aux prov env ds = (none, ds.length)) ∧
    ∀ y mo d h mi, get_current_provider_url prov env y mo d h mi =
      (resolve_aux prov env (build_date_strings y mo d h mi)).1 := by
  have hbuild := build_url_supported prov hprov
  have hcons : ∀ (d : String) (rest : List String),
      resolve_aux prov env (d :: rest) =
        if test_url env (urlOf prov d) = 200 then (some (urlOf prov d), 1)
        else ((resolve_aux prov env rest).1, (resolve_aux prov env rest).2 + 1) := by
    intro d rest
    rw [resolve_aux, hbuild d]
  refine ⟨?_, ?_, fun _ _ _ _ _ => rfl⟩
  · intro i hi hbefore hhit
    induction ds generalizing i with
    | nil => exact absurd hi (by simp)
    | cons d rest ih =>
      rw [hcons d rest]
      cases i with
      | zero =>
        rw [if_pos (show test_url env (urlOf prov d) = 200 from hhit)]
        rfl
      | succ i' =>
        have hhead : test_url env (urlOf prov d) ≠ 200 := hbefore 0 (Nat.succ_pos i')
        rw [if_neg hhead]
        have hi' : i' < rest.length := Nat.lt_of_succ_lt_succ hi
        have hrec := ih i' hi'
          (fun j hj => hbefore (j + 1) (Nat.succ_lt_succ hj))
          hhit
        rw [hrec]
        rfl
  · intro hall
    induction ds with
    | nil => rfl
    | cons d rest ih =>
      rw [hcons d rest, if_neg (hall d (List.mem_cons_self d rest)),
        ih (fun d' hd' => hall d' (List.mem_cons_of_mem d hd'))]
      rfl

/-- Concrete probe environment for the C3 witness: the third candidate's
URL answers 200, everything else 404. -/
def env3 : String → Option Nat :=
  fun u => if u = urlOf DOM ("c") then some 200 else some 404

theorem c3_url_resolution_witness :
    resolve_aux DOM env3 ["a", "b", "c", "d"] = (some (urlOf DOM ("c")), 3) :=
  (c3_url_resolution DOM env3 ["a", "b", "c", "d"] (Or.inl rfl)).1 2 (by decide)
    (by
      intro j hj
      interval_cases j
      · show test_url env3 (urlOf DOM ("a")) ≠ 200
        decide
      · show test_url env3 (urlOf DOM ("b")) ≠ 200
        decide)
    (by decide)

/-- One row of the provider/locality union feature class: fields
`Key_Auto`, `Cust_Out_Auto`, `Last_Updated_Auto`, `Cust_Out_Last_Report`
and `Delta_Out_Current_Last`, in cursor order in the store list. -/
structure Entity where
  key : String
  cust_out : Int
  last_updated : Option Nat
  last_report : Int
  delta : Int
deriving DecidableEq, Repr

/-- The two `CalculateField` calls opening `append_features`: every
entity's current-outage is set to the sentinel `-9999` and its
last-updated to null. -/
def reset_run_fields (store : List Entity) : List Entity :=
  store.map (fun e => { e with cust_out := -9999, last_updated := none })

/-- The per-row `UpdateCursor ... break` of `append_features`: update the
first entity whose `Key_Auto` equals the row's join key; later matches
are never reached because of the `break`. -/
def update_first (key : String) (v : Int) (date : Nat) : List Entity → List Entity
  | [] => []
  | e :: rest =>
    if e.key = key then
      { e with cust_out := v, last_updated := some date } :: rest
    else e :: update_first key v date rest

/-- `append_features(fc, rows)`: reset the run fields, then apply each
scraped row in order, joining on `row[2]` and writing `row[4]` plus the
run timestamp. -/
def append_features (store : List Entity) (rows : List ScrapeRow) (date : Nat) :
    List Entity :=
  rows.foldl (fun s r => update_first r.key r.out date s) (reset_run_fields store)

/-- `copy_field(fc)`: nullify `Cust_Out_Last_Report` and then copy
`Cust_Out_Auto` into it — the net effect is last-report := current. -/
def copy_field (store : List Entity) : List Entity :=
  store.map (fun e => { e with last_report := e.cust_out })

/-- `calc_delta(fc)`: set every delta to 0, then for every entity whose
current value is not the sentinel (`NOT Cust_Out_Auto = -9999`) set
delta to current − last-report. -/
def calc_delta (store : List Entity) : List Entity :=
  (store.map (fun e => { e with delta := 0 })).map
    (fun e => if e.cust_out = -9999 then e
      else { e with delta := e.cust_out - e.last_report })

/-- The cumulative effect of the `append_features` update loop on a
single entity. -/
def apply_rows (rows : List ScrapeRow) (date : Nat) (e : Entity) : Entity :=
  rows.foldl (fun x r => if x.key = r.key then
    { x with cust_out := r.out, last_updated := some date } else x) e

theorem update_first_eq_map (s : List Entity) (k : String) (v : Int) (date : Nat)
    (h : (s.map Entity.key).Nodup) :
    update_first k v date s =
      s.map (fun e => if e.key = k then
        { e with cust_out := v, last_updated := some date } else e) := by
  induction s with
  | nil => rfl
  | cons e rest ih =>
    simp only [List.map_cons, List.nodup_cons] at h
    by_cases he : e.key = k
    · simp only [update_first, if_pos he, List.map_cons]
      have htail : rest.map (fun e' => if e'.key = k then
          ({ e' with cust_out := v, last_updated := some date } : Entity) else e') =
            rest.map id := by
        apply List.map_congr_left
        intro x hx
        have hxk : ¬ x.key = k :=
          fun hxk => h.1 (List.mem_map.mpr ⟨x, hx, by rw [hxk, he]⟩)
        rw [if_neg hxk]
        rfl
      rw [htail, List.map_id]
    · simp only [update_first, if_neg he, List.map_cons]
      rw [ih h.2]

theorem map_key_of_preserving (s : List Entity) (f : Entity → Entity)
    (hf : ∀ e, (f e).key = e.key) :
    (s.map f).map Entity.key = s.map Entity.key := by
  rw [List.map_map]
  apply List.map_congr_left
  intro e _
  exact hf e

theorem reset_run_fields_map_key (store : List Entity) :
    (reset_run_fields store).map Entity.key = store.map Entity.key :=
  map_key_of_preserving store _ (fun _ => rfl)

theorem update_first_map_key (k : String) (v : Int) (date : Nat) (s : List Entity) :
    (update_first k v date s).map Entity.key = s.map Entity.key := by
  induction s with
  | nil => rfl
  | cons e rest ih =>
    by_cases he : e.key = k
    · simp only [update_first, if_pos he, List.map_cons]
    · simp only [update_first, if_neg he, List.map_cons, ih]

theorem append_features_eq_map (store : List Entity) (rows : List ScrapeRow) (date : Nat)
    (h : (store.map Entity.key).Nodup) :
    append_features store rows date =
      (reset_run_fields store).map (apply_rows rows date) := by
  suffices hgen : ∀ (rows : List ScrapeRow) (s : List Entity), (s.map Entity.key).Nodup →
      rows.foldl (fun s r => update_first r.key r.out date s) s =
        s.map (apply_rows rows date) by
    apply hgen rows (reset_run_fields store)
    rw [reset_run_fields_map_key]
    exact h
  intro rows
  induction rows with
  | nil =>
    intro s hs
    rw [List.foldl_nil]
    clear hs
    induction s with
    | nil => rfl
    | cons e t iht =>
      rw [List.map_cons, show apply_rows [] date e = e from rfl, ← iht]
  | cons r rest ih =>
    intro s hs
    simp only [List.foldl_cons]
    rw [update_first_eq_map s r.key r.out date hs]
    rw [ih _ ?keys]
    case keys =>
      rw [map_key_of_preserving]
      · exact hs
      · intro e
        by_cases he : e.key = r.key <;> simp [he]
    rw [List.map_map]
    apply List.map_congr_left
    intro e _
    rfl

theorem apply_rows_key (rows : List ScrapeRow) (date : Nat) (e : Entity) :
    (apply_rows rows date e).key = e.key := by
  induction rows generalizing e with
  | nil => rfl
  | cons r rest ih =>
    have hstep : apply_rows (r :: rest) date e =
        apply_rows rest date (if e.key = r.key then
          { e with cust_out := r.out, last_updated := some date } else e) := rfl
    rw [hstep, ih]
    by_cases he : e.key = r.key <;> simp [he]

theorem apply_rows_no_match (rows : List ScrapeRow) (date : Nat) (e : Entity)
    (h : ∀ r ∈ rows, r.key ≠ e.key) : apply_rows rows date e = e := by
  induction rows with
  | nil => rfl
  | cons r rest ih =>
    have hstep : apply_rows (r :: rest) date e =
        apply_rows rest date (if e.key = r.key then
          { e with cust_out := r.out, last_updated := some date } else e) := rfl
    rw [hstep, if_neg (fun hk => h r (List.mem_cons_self r rest) hk.symm)]
    exact ih (fun r' hr' => h r' (List.mem_cons_of_mem r hr'))

theorem apply_rows_unique_match (rows : List ScrapeRow) (date : Nat) (e : Entity)
    (r : ScrapeRow) (hnodup : (rows.map ScrapeRow.key).Nodup)
    (hr : r ∈ rows) (hk : r.key = e.key) :
    apply_rows rows date e = { e with cust_out := r.out, last_updated := some date } := by
  induction rows generalizing e with
  | nil => cases hr
  | cons r0 rest ih =>
    simp only [List.map_cons, List.nodup_cons] at hnodup
    have hstep : apply_rows (r0 :: rest) date e =
        apply_rows rest date (if e.key = r0.key then
          { e with cust_out := r0.out, last_updated := some date } else e) := rfl
    rcases List.mem_cons.mp hr with rfl | hr'
    · rw [hstep, if_pos hk.symm]
      apply apply_rows_no_match
      intro r' hr' hkey
      exact hnodup.1 (List.mem_map.mpr ⟨r', hr', by rw [hkey]; exact hk.symm⟩)
    · by_cases h0 : e.key = r0.key
      · exfalso
        apply hnodup.1
        exact List.mem_map.mpr ⟨r, hr', by rw [hk, h0]⟩
      · rw [hstep, if_neg h0]
        exact ih e hnodup.2 hr' hk

theorem apply_rows_last_match (rows : List ScrapeRow) (date : Nat) (e : Entity)
    (r : ScrapeRow)
    (h : (rows.filter (fun rr => rr.key = e.key)).getLast? = some r) :
    apply_rows rows date e = { e with cust_out := r.out, last_updated := some date } := by
  induction rows generalizing e with
  | nil => simp [List.getLast?] at h
  | cons r0 rest ih =>
    have hstep : apply_rows (r0 :: rest) date e =
        apply_rows rest date (if e.key = r0.key then
          { e with cust_out := r0.out, last_updated := some date } else e) := rfl
    by_cases h0 : r0.key = e.key
    · rw [List.filter_cons_of_pos (by simpa using h0)] at h
      rw [hstep, if_pos h0.symm]
      rcases hfr : rest.filter (fun rr => rr.key = e.key) with _ | ⟨b, l'⟩
      · rw [hfr] at h
        have hr0 : r0 = r := by
          simpa using h
        subst hr0
        apply apply_rows_no_match
        intro rr hrr
        have := List.filter_eq_nil_iff.mp hfr rr hrr
        simpa using this
      · rw [hfr, List.getLast?_cons_cons] at h
        have hrec := ih ({ e with cust_out := r0.out, last_updated := some date }) ?hfilter
        · rw [hrec]
        case hfilter =>
          show (rest.filter (fun rr => rr.key = e.key)).getLast? = some r
          rw [hfr]
          exact h
    · rw [List.filter_cons_of_neg (by simpa using h0)] at h
      rw [hstep, if_neg (fun hh => h0 hh.symm)]
      exact ih e h

theorem update_first_length (k : String) (v : Int) (date : Nat) (s : List Entity) :
    (update_first k v date s).length = s.length := by
  induction s with
  | nil => rfl
  | cons e rest ih =>
    by_cases he : e.key = k
    · simp only [update_first, if_pos he, List.length_cons]
    · simp only [update_first, if_neg he, List.length_cons, ih]

theorem update_first_getElem_stable (k : String) (v : Int) (date : Nat)
    (s : List Entity) (j : Nat)
    (hcond : (s.map Entity.key)[j]? ≠ some k ∨
      ∃ i, i < j ∧ (s.map Entity.key)[i]? = some k) :
    (update_first k v date s)[j]? = s[j]? := by
  induction s generalizing j with
  | nil => rfl
  | cons e rest ih =>
    by_cases he : e.key = k
    · simp only [update_first, if_pos he]
      cases j with
      | zero =>
        rcases hcond with hne | ⟨i, hi, _⟩
        · exact absurd (by simp [he]) hne
        · exact absurd hi (Nat.not_lt_zero i)
      | succ j' => simp
    · simp only [update_first, if_neg he]
      cases j with
      | zero => simp
      | succ j' =>
        simp only [List.getElem?_cons_succ]
        apply ih
        rcases hcond with hne | ⟨i, hi, hik⟩
        · left
          simpa using hne
        · right
          cases i with
          | zero =>
            exfalso
            apply he
            have : some e.key = some k := by simpa using hik
            exact Option.some.inj this
          | succ i' =>
            refine ⟨i', Nat.lt_of_succ_lt_succ hi, ?_⟩
            simpa using hik

theorem foldl_update_stable (rows : List ScrapeRow) (date : Nat) (s : List Entity)
    (j i : Nat) (hij : i < j)
    (hik : (s.map Entity.key)[i]? = (s.map Entity.key)[j]?) :
    (rows.foldl (fun s r => update_first r.key r.out date s) s)[j]? = s[j]? := by
  induction rows generalizing s with
  | nil => rfl
  | cons r rest ih =>
    simp only [List.foldl_cons]
    have hkeys := update_first_map_key r.key r.out date s
    rw [ih (update_first r.key r.out date s) (by rw [hkeys]; exact hik)]
    apply update_first_getElem_stable
    by_cases hkj : (s.map Entity.key)[j]? = some r.key
    · exact Or.inr ⟨i, hij, hik.trans hkj⟩
    · exact Or.inl hkj

/-- C1: reconciliation postconditions on a keyed store (join keys unique
on both the store and the scraped-row side, as presupposed by the spec's
keyed-record-store abstraction): after the reset every entity is at the
sentinel with null last-updated; after the update pass every entity
matched by a fresh record carries that record's `customersOut` and the
run timestamp while unmatched entities stay at the sentinel; after
`calc_delta` every non-sentinel entity has delta = current − last-report
and every sentinel entity has delta 0. -/
theorem c1_reconciliation_postconditions (store : List Entity) (rows : List ScrapeRow)
    (date : Nat) (hstore : (store.map Entity.key).Nodup)
    (hrows : (rows.map ScrapeRow.key).Nodup) :
    (∀ e ∈ reset_run_fields store, e.cust_out = -9999 ∧ e.last_updated = none) ∧
    (∀ e ∈ append_features store rows date,
      (∀ r ∈ rows, r.key = e.key → e.cust_out = r.out ∧ e.last_updated = some date) ∧
      ((∀ r ∈ rows, r.key ≠ e.key) → e.cust_out = -9999 ∧ e.last_updated = none)) ∧
    (∀ s : List Entity, ∀ e ∈ calc_delta s,
      (e.cust_out ≠ -9999 → e.delta = e.cust_out - e.last_report) ∧
      (e.cust_out = -9999 → e.delta = 0)) := by
  refine ⟨?_, ?_, ?_⟩
  · intro e he
    rcases List.mem_map.mp he with ⟨e0, _, rfl⟩
    exact ⟨rfl, rfl⟩
  · intro e he
    rw [append_features_eq_map store rows date hstore] at he
    rcases List.mem_map.mp he with ⟨e1, he1, rfl⟩
    rcases List.mem_map.mp he1 with ⟨e0, he0, rfl⟩
    constructor
    · intro r hr hk
      have hk' : r.key =
          ({ e0 with cust_out := -9999, last_updated := none } : Entity).key := by
        rw [hk, apply_rows_key]
      rw [apply_rows_unique_match rows date _ r hrows hr hk']
      exact ⟨rfl, rfl⟩
    · intro hnone
      have hnone' : ∀ r ∈ rows, r.key ≠
          ({ e0 with cust_out := -9999, last_updated := none } : Entity).key := by
        intro r hr hk
        exact hnone r hr (hk.trans (apply_rows_key rows date _).symm)
      rw [apply_rows_no_match rows date _ hnone']
      exact ⟨rfl, rfl⟩
  · intro s e he
    unfold calc_delta at he
    rcases List.mem_map.mp he with ⟨e1, he1, rfl⟩
    rcases List.mem_map.mp he1 with ⟨e0, he0, rfl⟩
    by_cases h : e0.cust_out = -9999
    · simp [h]
    · simp [h]

theorem c1_reconciliation_postconditions_witness :
    (Entity.mk ("a") 7 (some 9) 2 3).cust_out = 7 ∧
    (Entity.mk ("a") 7 (some 9) 2 3).last_updated = some 9 :=
  ((c1_reconciliation_postconditions
      [Entity.mk ("a") 1 none 2 3, Entity.mk ("b") 4 (some 1) 5 6]
      [ScrapeRow.mk ("A") "P" "a" 0 7 "t"] 9
      (by decide) (by decide)).2.1
    (Entity.mk ("a") 7 (some 9) 2 3) (by decide)).1
    (ScrapeRow.mk ("A") "P" "a" 0 7 "t") (by decide) (by decide)

/-- C9: the round-trip `copy_field` then `calc_delta` — with the current
value unchanged in between, so that every entity's last-report equals
its current value — yields delta 0 for every entity whose current value
is not the sentinel. -/
theorem c9_copy_then_delta_zero (store : List Entity) :
    ∀ e ∈ calc_delta (copy_field store), e.cust_out ≠ -9999 → e.delta = 0 := by
  intro e he hne
  unfold calc_delta copy_field at he
  rcases List.mem_map.mp he with ⟨e1, he1, rfl⟩
  rcases List.mem_map.mp he1 with ⟨e2, he2, rfl⟩
  rcases List.mem_map.mp he2 with ⟨e0, he0, rfl⟩
  by_cases h : e0.cust_out = -9999
  · exfalso
    apply hne
    simp [h]
  · simp [h]

theorem c9_copy_then_delta_zero_witness :
    (Entity.mk ("k") 5 none 5 0).delta = 0 :=
  c9_copy_then_delta_zero [Entity.mk ("k") 5 none 3 99]
    (Entity.mk ("k") 5 none 5 0) (by decide) (by decide)

/-- C10: in the provider-level update pass each scraped row updates at
most one stored entity — an entity with an earlier same-key entity in
cursor order is never touched and stays exactly as the reset left it —
and when several scraped rows carry the same join key the last row's
`customersOut` value is the one written (last write wins, no summing). -/
theorem c10_first_match_last_write (store : List Entity) (rows : List ScrapeRow)
    (date : Nat) :
    (∀ j, ∀ hj : j < store.length, ∀ i, i < j →
      (store.map Entity.key)[i]? = (store.map Entity.key)[j]? →
      (append_features store rows date)[j]? =
        some { store.get ⟨j, hj⟩ with cust_out := -9999, last_updated := none }) ∧
    ((store.map Entity.key).Nodup →
      ∀ e ∈ append_features store rows date, ∀ r : ScrapeRow,
        (rows.filter (fun rr => rr.key = e.key)).getLast? = some r →
        e.cust_out = r.out ∧ e.last_updated = some date) := by
  constructor
  · intro j hj i hij hik
    unfold append_features
    rw [foldl_update_stable rows date (reset_run_fields store) j i hij
      (by rw [reset_run_fields_map_key]; exact hik)]
    unfold reset_run_fields
    rw [List.getElem?_map, List.getElem?_eq_getElem hj]
    rfl
  · intro hnodup e he r hlast
    rw [append_features_eq_map store rows date hnodup] at he
    rcases List.mem_map.mp he with ⟨e1, he1, rfl⟩
    simp only [apply_rows_key] at hlast
    rw [apply_rows_last_match rows date e1 r hlast]
    exact ⟨rfl, rfl⟩

theorem c10_first_match_last_write_witness :
    ((append_features [Entity.mk ("a") 1 none 0 0, Entity.mk ("a") 2 none 0 0]
        [ScrapeRow.mk ("x") "p" "a" 0 7 "t"] 5)[1]? =
      some (Entity.mk ("a") (-9999) none 0 0)) ∧
    ((Entity.mk ("a") 8 (some 5) 0 0).cust_out = 8 ∧
      (Entity.mk ("a") 8 (some 5) 0 0).last_updated = some 5) :=
  ⟨(c10_first_match_last_write
      [Entity.mk ("a") 1 none 0 0, Entity.mk ("a") 2 none 0 0]
      [ScrapeRow.mk ("x") "p" "a" 0 7 "t"] 5).1 1 (by decide) 0 (by decide) (by decide),
   (c10_first_match_last_write [Entity.mk ("a") 1 none 0 0]
      [ScrapeRow.mk ("x") "p" "a" 0 7 "t", ScrapeRow.mk ("y") "q" "a" 0 8 "t"] 5).2
      (by decide) (Entity.mk ("a") 8 (some 5) 0 0) (by decide)
      (ScrapeRow.mk ("y") "q" "a" 0 8 "t") (by decide)⟩

/-- One row of the locality-only feature class: fields `Loc_Name_Auto`,
`Cust_Out_Auto`, `Last_Updated_Auto`, `Cust_Out_Human_Readable`,
`Cust_Out_Last_Report`, `Delta_Out_Current_Last`. -/
structure LocEntity where
  key : String
  cust_out : Int
  last_updated : Option Nat
  human_read : Int
  last_report : Int
  delta : Int
deriving DecidableEq, Repr

/-- The two `CalculateField` calls opening `append_localities`: the
human-readable field is NOT touched by this reset. -/
def reset_run_fields_loc (store : List LocEntity) : List LocEntity :=
  store.map (fun e => { e with cust_out := -9999, last_updated := none })

/-- The per-aggregate `UpdateCursor ... break` of `append_localities`:
update the first entity whose `Loc_Name_Auto` equals the dict key,
writing value, timestamp, and the human-readable value that substitutes
0 for the sentinel. -/
def update_first_loc (key : String) (v : Int) (date : Nat) :
    List LocEntity → List LocEntity
  | [] => []
  | e :: rest =>
    if e.key = key then
      { e with
        cust_out := v
        last_updated := some date
        human_read := if v = -9999 then 0 else v } :: rest
    else e :: update_first_loc key v date rest

/-- `append_localities(fc, rows)`: reset, then walk the dissolved
dictionary's entries in order. -/
def append_localities (store : List LocEntity) (kvs : List (String × Int))
    (date : Nat) : List LocEntity :=
  kvs.foldl (fun s kv => update_first_loc kv.1 kv.2 date s) (reset_run_fields_loc store)

/-- The cumulative effect of the `append_localities` loop on one entity. -/
def apply_kvs (kvs : List (String × Int)) (date : Nat) (e : LocEntity) : LocEntity :=
  kvs.foldl (fun x kv => if x.key = kv.1 then
    { x with
      cust_out := kv.2
      last_updated := some date
      human_read := if kv.2 = -9999 then 0 else kv.2 } else x) e

theorem map_key_of_preserving_loc (s : List LocEntity) (f : LocEntity → LocEntity)
    (hf : ∀ e, (f e).key = e.key) :
    (s.map f).map LocEntity.key = s.map LocEntity.key := by
  rw [List.map_map]
  apply List.map_congr_left
  intro e _
  exact hf e

theorem reset_run_fields_loc_map_key (store : List LocEntity) :
    (reset_run_fields_loc store).map LocEntity.key = store.map LocEntity.key :=
  map_key_of_preserving_loc store _ (fun _ => rfl)

theorem update_first_loc_map_key (k : String) (v : Int) (date : Nat)
    (s : List LocEntity) :
    (update_first_loc k v date s).map LocEntity.key = s.map LocEntity.key := by
  induction s with
  | nil => rfl
  | cons e rest ih =>
    by_cases he : e.key = k
    · simp only [update_first_loc, if_pos he, List.map_cons]
    · simp only [update_first_loc, if_neg he, List.map_cons, ih]

theorem update_first_loc_eq_map (s : List LocEntity) (k : String) (v : Int) (date : Nat)
    (h : (s.map LocEntity.key).Nodup) :
    update_first_loc k v date s =
      s.map (fun e => if e.key = k then
        { e with
          cust_out := v
          last_updated := some date
          human_read := if v = -9999 then 0 else v } else e) := by
  induction s with
  | nil => rfl
  | cons e rest ih =>
    simp only [List.map_cons, List.nodup_cons] at h
    by_cases he : e.key = k
    · simp only [update_first_loc, if_pos he, List.map_cons]
      have htail : rest.map (fun e' => if e'.key = k then
          ({ e' with
            cust_out := v
            last_updated := some date
            human_read := if v = -9999 then 0 else v } : LocEntity) else e') =
            rest.map id := by
        apply List.map_congr_left
        intro x hx
        have hxk : ¬ x.key = k :=
          fun hxk => h.1 (List.mem_map.mpr ⟨x, hx, by rw [hxk, he]⟩)
        rw [if_neg hxk]
        rfl
      rw [htail, List.map_id]
    · simp only [update_first_loc, if_neg he, List.map_cons]
      rw [ih h.2]

theorem append_localities_eq_map (store : List LocEntity) (kvs : List (String × Int))
    (date : Nat) (h : (store.map LocEntity.key).Nodup) :
    append_localities store kvs date =
      (reset_run_fields_loc store).map (apply_kvs kvs date) := by
  suffices hgen : ∀ (kvs : List (String × Int)) (s : List LocEntity),
      (s.map LocEntity.key).Nodup →
      kvs.foldl (fun s kv => update_first_loc kv.1 kv.2 date s) s =
        s.map (apply_kvs kvs date) by
    apply hgen kvs (reset_run_fields_loc store)
    rw [reset_run_fields_loc_map_key]
    exact h
  intro kvs
  induction kvs with
  | nil =>
    intro s hs
    rw [List.foldl_nil]
    clear hs
    induction s with
    | nil => rfl
    | cons e t iht =>
      rw [List.map_cons, show apply_kvs [] date e = e from rfl, ← iht]
  | cons kv rest ih =>
    intro s hs
    simp only [List.foldl_cons]
    rw [update_first_loc_eq_map s kv.1 kv.2 date hs]
    rw [ih _ ?keys]
    case keys =>
      rw [map_key_of_preserving_loc]
      · exact hs
      · intro e
        by_cases he : e.key = kv.1 <;> simp [he]
    rw [List.map_map]
    apply List.map_congr_left
    intro e _
    rfl

theorem apply_kvs_key (kvs : List (String × Int)) (date : Nat) (e : LocEntity) :
    (apply_kvs kvs date e).key = e.key := by
  induction kvs generalizing e with
  | nil => rfl
  | cons kv rest ih =>
    have hstep : apply_kvs (kv :: rest) date e =
        apply_kvs rest date (if e.key = kv.1 then
          { e with
            cust_out := kv.2
            last_updated := some date
            human_read := if kv.2 = -9999 then 0 else kv.2 } else e) := rfl
    rw [hstep, ih]
    by_cases he : e.key = kv.1 <;> simp [he]

theorem apply_kvs_no_match (kvs : List (String × Int)) (date : Nat) (e : LocEntity)
    (h : ∀ kv ∈ kvs, kv.1 ≠ e.key) : apply_kvs kvs date e = e := by
  induction kvs with
  | nil => rfl
  | cons kv rest ih =>
    have hstep : apply_kvs (kv :: rest) date e =
        apply_kvs rest date (if e.key = kv.1 then
          { e with
            cust_out := kv.2
            last_updated := some date
            human_read := if kv.2 = -9999 then 0 else kv.2 } else e) := rfl
    rw [hstep, if_neg (fun hk => h kv (List.mem_cons_self kv rest) hk.symm)]
    exact ih (fun kv' hkv' => h kv' (List.mem_cons_of_mem kv hkv'))

theorem apply_kvs_unique_match (kvs : List (String × Int)) (date : Nat) (e : LocEntity)
    (kv : String × Int) (hnodup : (kvs.map Prod.fst).Nodup)
    (hkv : kv ∈ kvs) (hk : kv.1 = e.key) :
    apply_kvs kvs date e =
      { e with
        cust_out := kv.2
        last_updated := some date
        human_read := if kv.2 = -9999 then 0 else kv.2 } := by
  induction kvs generalizing e with
  | nil => cases hkv
  | cons kv0 rest ih =>
    simp only [List.map_cons, List.nodup_cons] at hnodup
    have hstep : apply_kvs (kv0 :: rest) date e =
        apply_kvs rest date (if e.key = kv0.1 then
          { e with
            cust_out := kv0.2
            last_updated := some date
            human_read := if kv0.2 = -9999 then 0 else kv0.2 } else e) := rfl
    rcases List.mem_cons.mp hkv with rfl | hkv'
    · rw [hstep, if_pos hk.symm]
      apply apply_kvs_no_match
      intro kv' hkv' hkey
      exact hnodup.1 (List.mem_map.mpr ⟨kv', hkv', by rw [hkey]; exact hk.symm⟩)
    · by_cases h0 : e.key = kv0.1
      · exfalso
        apply hnodup.1
        exact List.mem_map.mpr ⟨kv, hkv', by rw [hk, h0]⟩
      · rw [hstep, if_neg h0]
        exact ih e hnodup.2 hkv' hk

theorem update_first_loc_getElem_ne (k : String) (v : Int) (date : Nat)
    (s : List LocEntity) (j : Nat)
    (h : (s.map LocEntity.key)[j]? ≠ some k) :
    (update_first_loc k v date s)[j]? = s[j]? := by
  induction s generalizing j with
  | nil => rfl
  | cons e rest ih =>
    by_cases he : e.key = k
    · simp only [update_first_loc, if_pos he]
      cases j with
      | zero => exact absurd (by simp [he]) h
      | succ j' => simp
    · simp only [update_first_loc, if_neg he]
      cases j with
      | zero => simp
      | succ j' =>
        simp only [List.getElem?_cons_succ]
        apply ih
        simpa using h

theorem foldl_update_loc_stable (kvs : List (String × Int)) (date : Nat)
    (s : List LocEntity) (j : Nat)
    (hne : ∀ kv ∈ kvs, (s.map LocEntity.key)[j]? ≠ some kv.1) :
    (kvs.foldl (fun s kv => update_first_loc kv.1 kv.2 date s) s)[j]? = s[j]? := by
  induction kvs generalizing s with
  | nil => rfl
  | cons kv rest ih =>
    simp only [List.foldl_cons]
    have hkeys := update_first_loc_map_key kv.1 kv.2 date s
    rw [ih (update_first_loc kv.1 kv.2 date s)
      (fun kv' hkv' => by
        rw [hkeys]
        exact hne kv' (List.mem_cons_of_mem kv hkv'))]
    exact update_first_loc_getElem_ne kv.1 kv.2 date s j
      (hne kv (List.mem_cons_self kv rest))

/-- C8 counterexample: a locality entity matched by no aggregate is left
at the sentinel with its human-readable field untouched from the
previous run (here 7, not 0), so "every entity whose current-outage is
the sentinel has human-readable 0" fails after the update pass. -/
theorem c8_human_readable_counterexample :
    ¬ ∀ e ∈ append_localities [LocEntity.mk ("henrico") 5 (some 1) 7 0 0]
        [("fairfax", (3 : Int))] 2,
      (e.cust_out = -9999 → e.human_read = 0) ∧
      (e.cust_out ≠ -9999 → e.human_read = e.cust_out) := by
  decide

/-- C8 (amended): after the locality-level update pass, every entity
matched by an aggregate (store and aggregate keys unique, as for a
dissolved dict against a keyed store) carries the aggregate value, the
run timestamp, and a human-readable value equal to 0 if its current
value is the sentinel and to the current value otherwise; entities
matched by no aggregate keep their previous human-readable value while
current-outage stays at the sentinel and last-updated at null. -/
theorem c8_human_readable_update (store : List LocEntity) (kvs : List (String × Int))
    (date : Nat) (hstore : (store.map LocEntity.key).Nodup)
    (hkvs : (kvs.map Prod.fst).Nodup) :
    (∀ e ∈ append_localities store kvs date,
      ∀ kv ∈ kvs, kv.1 = e.key →
        e.cust_out = kv.2 ∧ e.last_updated = some date ∧
        e.human_read = (if e.cust_out = -9999 then 0 else e.cust_out)) ∧
    (∀ j, ∀ hj : j < store.length,
      (∀ kv ∈ kvs, kv.1 ≠ (store.get ⟨j, hj⟩).key) →
      (append_localities store kvs date)[j]? =
        some { store.get ⟨j, hj⟩ with cust_out := -9999, last_updated := none }) := by
  constructor
  · intro e he kv hkv hk
    rw [append_localities_eq_map store kvs date hstore] at he
    rcases List.mem_map.mp he with ⟨e1, he1, rfl⟩
    have hk' : kv.1 = e1.key := by
      rw [hk, apply_kvs_key]
    rw [apply_kvs_unique_match kvs date e1 kv hkvs hkv hk']
    refine ⟨rfl, rfl, ?_⟩
    by_cases hv : kv.2 = -9999 <;> simp [hv]
  · intro j hj hnone
    unfold append_localities
    rw [foldl_update_loc_stable kvs date (reset_run_fields_loc store) j ?hne]
    · unfold reset_run_fields_loc
      rw [List.getElem?_map, List.getElem?_eq_getElem hj]
      rfl
    case hne =>
      intro kv hkv
      rw [reset_run_fields_loc_map_key]
      rw [List.getElem?_map, List.getElem?_eq_getElem hj]
      intro hcontra
      exact hnone kv hkv (Option.some.inj hcontra).symm

theorem c8_human_readable_update_witness :
    ((LocEntity.mk ("henrico") 3 (some 2) 3 0 0).cust_out = 3 ∧
      (LocEntity.mk ("henrico") 3 (some 2) 3 0 0).last_updated = some 2 ∧
      (LocEntity.mk ("henrico") 3 (some 2) 3 0 0).human_read =
        (if (LocEntity.mk ("henrico") 3 (some 2) 3 0 0).cust_out = -9999 then 0
         else (LocEntity.mk ("henrico") 3 (some 2) 3 0 0).cust_out)) ∧
    (append_localities [LocEntity.mk ("henrico") 5 (some 1) 7 0 0]
        [("fairfax", (3 : Int))] 2)[0]? =
      some (LocEntity.mk ("henrico") (-9999) none 7 0 0) :=
  ⟨(c8_human_readable_update [LocEntity.mk ("henrico") 5 (some 1) 7 0 0]
      [("henrico", (3 : Int))] 2 (by decide) (by decide)).1
      (LocEntity.mk ("henrico") 3 (some 2) 3 0 0) (by decide)
      ("henrico", (3 : Int)) (by decide) (by decide),
   (c8_human_readable_update [LocEntity.mk ("henrico") 5 (some 1) 7 0 0]
      [("fairfax", (3 : Int))] 2 (by decide) (by decide)).2
      0 (by decide) (by decide)⟩

/-- JSON values as produced by Python's `json.loads`, restricted to the
shapes the co-op payload uses: objects, arrays, strings without escape
sequences, and non-negative integers. -/
inductive Json where
  | str (s : String) : Json
  | num (n : Int) : Json
  | arr (xs : List Json) : Json
  | obj (kvs : List (String × Json)) : Json

/-- Skip JSON whitespace. -/
def skipWs : List Char → List Char
  | c :: rest =>
    if c = ' ' ∨ c = '\t' ∨ c = '\n' ∨ c = '\r' then skipWs rest else c :: rest
  | [] => []

/-- Parse the characters of a JSON string literal after the opening
quote (the payload uses no escape sequences). -/
def parseStrChars : List Char → Option (List Char × List Char)
  | [] => none
  | c :: rest =>
    if c = '"' then some ([], rest)
    else
      match parseStrChars rest with
      | some (s, r) => some (c :: s, r)
      | none => none

/-- Consume a run of decimal digits into an accumulator. -/
def parseNatAux : List Char → Nat → Nat × List Char
  | c :: rest, acc =>
    if c.isDigit then parseNatAux rest (acc * 10 + (c.toNat - 48)) else (acc, c :: rest)
  | [], acc => (acc, [])

mutual

/-- Parse one JSON value (fuelled recursive descent). -/
def parseVal : Nat → List Char → Option (Json × List Char)
  | 0, _ => none
  | fuel + 1, l =>
    match skipWs l with
    | [] => none
    | c :: rest =>
      if c = '"' then
        match parseStrChars rest with
        | some (s, r) => some (Json.str (String.mk s), r)
        | none => none
      else if c = '[' then
        match skipWs rest with
        | ']' :: r => some (Json.arr [], r)
        | l2 =>
          match parseArrItems fuel l2 with
          | some (xs, r) => some (Json.arr xs, r)
          | none => none
      else if c = '\x7b' then
        match skipWs rest with
        | '\x7d' :: r => some (Json.obj [], r)
        | l2 =>
          match parseObjItems fuel l2 with
          | some (kvs, r) => some (Json.obj kvs, r)
          | none => none
      else if c.isDigit then
        let p := parseNatAux (c :: rest) 0
        some (Json.num (Int.ofNat p.1), p.2)
      else none

/-- Parse the comma-separated items of a non-empty JSON array up to the
closing bracket. -/
def parseArrItems : Nat → List Char → Option (List Json × List Char)
  | 0, _ => none
  | fuel + 1, l =>
    match parseVal fuel l with
    | none => none
    | some (v, r) =>
      match skipWs r with
      | ',' :: r2 =>
        match parseArrItems fuel r2 with
        | some (xs, r3) => some (v :: xs, r3)
        | none => none
      | ']' :: r2 => some ([v], r2)
      | _ => none

/-- Parse the comma-separated members of a non-empty JSON object up to
the closing brace. -/
def parseObjItems : Nat → List Char → Option (List (String × Json) × List Char)
  | 0, _ => none
  | fuel + 1, l =>
    match skipWs l with
    | '"' :: r =>
      match parseStrChars r with
      | none => none
      | some (k, r2) =>
        match skipWs r2 with
        | ':' :: r3 =>
          match parseVal fuel r3 with
          | none => none
          | some (v, r4) =>
            match skipWs r4 with
            | ',' :: r5 =>
              match parseObjItems fuel r5 with
              | some (kvs, r6) => some ((String.mk k, v) :: kvs, r6)
              | none => none
            | '\x7d' :: r5 => some ([(String.mk k, v)], r5)
            | _ => none
        | _ => none
    | _ => none

end

/-- Python `json.loads` on the payload subset; `none` models a raised
`ValueError` (which propagates out of `scrape_coop_data`). -/
def json_loads (l : List Char) : Option Json :=
  match parseVal (2 * l.length + 2) l with
  | some (v, r) => if skipWs r = [] then some v else none
  | none => none

/-- Python `s.replace(old, new)`: replace every non-overlapping
occurrence left to right (fuelled by the input length). -/
def py_replace_aux : Nat → List Char → List Char → List Char → List Char
  | 0, l, _, _ => l
  | fuel + 1, l, pat, rep =>
    if pat ≠ [] ∧ pat.isPrefixOf l then
      rep ++ py_replace_aux fuel (l.drop pat.length) pat rep
    else
      match l with
      | [] => []
      | c :: cs => c :: py_replace_aux fuel cs pat rep

/-- Python `s.replace(old, new)` wrapper. -/
def py_replace (l pat rep : List Char) : List Char :=
  py_replace_aux (l.length + 1) l pat rep

/-- Python `s[1:-4]`. -/
def py_slice_one_neg4 (l : List Char) : List Char := (l.take (l.length - 4)).drop 1

/-- Python `s[:-3]`. -/
def py_slice_neg3 (l : List Char) : List Char := l.take (l.length - 3)

/-- Python dict lookup on a parsed JSON object: a later duplicate key
overrides an earlier one, as in `json.loads`. -/
def jLookup (kvs : List (String × Json)) (k : String) : Option Json :=
  match kvs with
  | [] => none
  | (k', v) :: rest =>
    match jLookup rest k with
    | some r => some r
    | none => if k' = k then some v else none

/-- The inner `for county in counties` loop of `scrape_coop_data`: a
malformed county entry raises inside the per-company `try`, which keeps
the rows already appended and abandons the rest of this company. -/
def coop_counties (provider : String) (ds : String) : List Json → List ScrapeRow
  | [] => []
  | c :: rest =>
    match c with
    | Json.obj kvs =>
      match jLookup kvs ("name"), jLookup kvs ("outage") with
      | some (Json.str locality), some (Json.num out) =>
        ScrapeRow.mk locality provider (create_prog_key provider locality) 0 out ds
          :: coop_counties provider ds rest
      | _, _ => []
    | _ => []

/-- One `for val in json_file_coop.values()` iteration of
`scrape_coop_data`: served-customer count is hard-coded to 0; a company
whose `company`/`county` fields are missing or unusable contributes no
rows (the exception is swallowed and the loop continues). -/
def coop_company (ds : String) (v : Json) : List ScrapeRow :=
  match v with
  | Json.obj kvs =>
    match jLookup kvs ("company"), jLookup kvs ("county") with
    | some (Json.str provider), some (Json.arr counties) =>
      coop_counties provider ds counties
    | _, _ => []
  | _ => []

/-- `scrape_coop_data(in_url)`: the payload is the two JS source lines
returned by `readlines()` (line terminators included).  Strip the
leading `var ... = ` assignment token and the trailing statement
punctuation from each line, wrap the first into an array-bearing
`companies` object and parse it (a failure there aborts the whole
scrape), parse the second independently, and emit one row per company
county. -/
def scrape_coop_data (line0 line1 : List Char) (date_str : String) :
    Option (List ScrapeRow) :=
  let data_var := ("\x7b \"companies\": [".data) ++
    py_slice_one_neg4 (py_replace line0 ("var data = ".data) []) ++ ("]\x7d".data)
  match json_loads data_var with
  | none => none
  | some _ =>
    let coop_var := py_slice_neg3 (py_replace line1 ("var coop_data = ".data) [])
    match json_loads coop_var with
    | none => none
    | some (Json.obj kvs) =>
      some (kvs.foldl (fun acc kv => acc ++ coop_company date_str kv.2) [])
    | some _ => none

/-- The C7 scenario's first payload line, `var data = [...];`, with the
CRLF terminator `readlines()` preserves. -/
def coop_line0 : List Char :=
  ("var data = [[\"Mecklenburg Electric\",5]];\r\n").data

/-- The C7 scenario's second payload line,
`var coop_data = {"1":{"company":"Mecklenburg Electric","county":[{"name":"Mecklenburg","outage":5}]}};`,
with the CRLF terminator `readlines()` preserves. -/
def coop_line1 : List Char :=
  ("var coop_data = \x7b\"1\":\x7b\"company\":\"Mecklenburg Electric\",\"county\":[\x7b\"name\":\"Mecklenburg\",\"outage\":5\x7d]\x7d\x7d;\r\n").data

/-- C7: on the co-op payload of the scenario, the scraper outputs exactly
one record `["Mecklenburg", "Mecklenburg Electric",
"mecklenburgelectricmecklenburg", 0, 5, <run timestamp>]`, with the
served-customer count defaulted to 0. -/
theorem c7_coop_scrape (ds : String) :
    scrape_coop_data coop_line0 coop_line1 ds =
      some [ScrapeRow.mk ("Mecklenburg") ("Mecklenburg Electric")
        ("mecklenburgelectricmecklenburg") 0 5 ds] := by
  rfl

end OutageAnalysis
